import Mathlib

/-!
Shallow embedding of `src/safe_uploader.py` (repository RaminFP/mysql_utils):
the relay subprocess (`main`), the termination-token helpers
(`get_term_dir`, `get_term_file`, `check_term_file`), the orchestrator
(`safe_upload`) and the teardown helper (`kill_precursor_procs`), together
with theorems settling the frozen claims about them.

External effects (process spawning, polling, file I/O) are modelled by an
explicit environment that fixes the outcome of each effectful step; the
control flow, the order of the steps and the exception semantics
(`try`/`except`/`finally` of Python 2, where an exception escaping the
`finally` block replaces the in-flight one) are translated faithfully from
the source.
-/

/-- Exceptions that can arise in the modelled code paths. -/
inductive Err where
  | procFailed (name : String) (code : Int)
  | checkFuncFailed
  | tokenCreateFailed
  | spawnFailed
  | signalWriteFailed
  | removeFailed
  | nameError
  | killFailed
deriving DecidableEq, Repr

/-- Observable status of a monitored process at a poll. -/
inductive PStatus where
  | running
  | succeeded
  | failed (code : Int)
deriving DecidableEq, Repr

/-- A named process group, as the dict of procs passed around in the source. -/
abbrev ProcGroup := List (String × PStatus)

/-- Result of one monitor poll: a boolean, or a raised exception. -/
inductive MRes where
  | ok (b : Bool)
  | err (e : Err)
deriving DecidableEq, Repr

/-- Modelled from the spec: `host_utils.check_dict_of_procs` (repository code
not under src/). Non-blocking poll of every handle in the group; returns
true only once every handle has exited with success; if any handle has
exited with a non-success status it raises a fatal condition carrying the
offending name and exit code; otherwise returns false. -/
def check_dict_of_procs : ProcGroup → MRes
  | [] => .ok true
  | (n, .failed c) :: _ => .err (.procFailed n c)
  | (_, .succeeded) :: rest => check_dict_of_procs rest
  | (_, .running) :: rest =>
    match check_dict_of_procs rest with
    | .err e => .err e
    | .ok _ => .ok false

theorem check_dict_of_procs_ok_true_iff (g : ProcGroup) :
    check_dict_of_procs g = .ok true ↔ ∀ p ∈ g, p.2 = PStatus.succeeded := by
  induction g with
  | nil => simp [check_dict_of_procs]
  | cons hd rest ih =>
    obtain ⟨n, st⟩ := hd
    cases st with
    | running =>
      simp only [check_dict_of_procs]
      cases h : check_dict_of_procs rest <;> simp [h]
    | succeeded => simpa [check_dict_of_procs] using ih
    | failed c => simp [check_dict_of_procs]

/-- The magic string written to the termination token (`TERM_STRING`). -/
def TERM_STRING : List Char := "TIME_TO_DIE".data

/-- `check_term_file` from the source: open the term file, read
`len(TERM_STRING)` characters, and compare the result with `TERM_STRING`.
The file contents are passed in explicitly. -/
def check_term_file (contents : List Char) : Bool :=
  contents.take TERM_STRING.length == TERM_STRING

/-- Characterisation: the check succeeds exactly when the magic string is a
leading segment of the file contents (content may extend past it). -/
theorem check_term_file_iff (contents : List Char) :
    check_term_file contents = true ↔ ∃ rest, contents = TERM_STRING ++ rest := by
  unfold check_term_file
  rw [beq_iff_eq]
  constructor
  · intro h
    refine ⟨contents.drop TERM_STRING.length, ?_⟩
    conv_lhs => rw [← List.take_append_drop TERM_STRING.length contents, h]
  · rintro ⟨rest, rfl⟩
    simp

/-! ## The relay (`main` in the source)

One loop iteration reads a block from stdin.  A non-empty block is written
to stdout verbatim.  On an empty read the code sleeps a fixed interval,
writes the (empty) data to stdout to detect a broken pipe, and then checks
the termination path.  A write to a closed downstream pipe raises an
uncaught IOError, making the process exit non-zero.

One iteration's environment is an `RStep`: the block returned by
`sys.stdin.read(BLOCK)`, whether the `sys.stdout.write` of this iteration
succeeds, and the state of the termination file (`none` when the path does
not exist, otherwise its contents). -/

/-- Environment of a single relay-loop iteration. -/
structure RStep where
  chunk : List Nat
  wOk : Bool
  file : Option (List Char)
deriving DecidableEq, Repr

/-- Observable actions of the relay. -/
inductive REv where
  | sleep
  | write (data : List Nat)
  | poll
deriving DecidableEq, Repr

/-- How a relay run ends. -/
inductive ROut where
  | running
  | exit0
  | fault
deriving DecidableEq, Repr

/-- One iteration of the relay loop, from the source: events performed,
bytes emitted on stdout, and `some` outcome when the iteration ends the
process (clean `sys.exit(0)` or an uncaught write fault). -/
def relayStep (s : RStep) : List REv × List Nat × Option ROut :=
  if s.chunk.isEmpty then
    if s.wOk then
      ([REv.sleep, REv.write s.chunk, REv.poll], s.chunk,
        match s.file with
        | some c => if check_term_file c then some ROut.exit0 else none
        | none => none)
    else
      ([REv.sleep, REv.write s.chunk], [], some ROut.fault)
  else
    if s.wOk then ([REv.write s.chunk], s.chunk, none)
    else ([REv.write s.chunk], [], some ROut.fault)

/-- Run the relay loop over a finite schedule of iteration environments;
`ROut.running` means the schedule ended with the loop still going. -/
def relayRun : List RStep → List REv × List Nat × ROut
  | [] => ([], [], ROut.running)
  | s :: rest =>
    match relayStep s with
    | (evs, out, some r) => (evs, out, r)
    | (evs, out, none) =>
      let (evs2, out2, r) := relayRun rest
      (evs ++ evs2, out ++ out2, r)

theorem relayRun_cons_stop (s : RStep) (rest : List RStep) (r : ROut)
    (h : (relayStep s).2.2 = some r) :
    relayRun (s :: rest) = ((relayStep s).1, (relayStep s).2.1, r) := by
  rcases hstep : relayStep s with ⟨evs, out, o⟩
  rw [hstep] at h
  simp only [Prod.snd] at h
  subst h
  simp [relayRun, hstep]

theorem relayRun_cons_continue (s : RStep) (rest : List RStep)
    (h : (relayStep s).2.2 = none) :
    relayRun (s :: rest) = ((relayStep s).1 ++ (relayRun rest).1,
      (relayStep s).2.1 ++ (relayRun rest).2.1, (relayRun rest).2.2) := by
  rcases hstep : relayStep s with ⟨evs, out, o⟩
  rw [hstep] at h
  simp only [Prod.snd] at h
  subst h
  rcases hrest : relayRun rest with ⟨evs2, out2, r2⟩
  simp [relayRun, hstep, hrest]

theorem relayStep_stop_not_running (s : RStep) (r : ROut)
    (h : (relayStep s).2.2 = some r) : r ≠ ROut.running := by
  unfold relayStep at h
  by_cases hc : s.chunk.isEmpty <;> by_cases hw : s.wOk <;>
    simp [hc, hw] at h
  · rcases hf : s.file with _ | c
    · rw [hf] at h; simp at h
    · rw [hf] at h
      by_cases hterm : check_term_file c
      · simp [hterm] at h
        simp [← h]
      · simp [hterm] at h
  · simp [← h]
  · simp [← h]

theorem relayStep_out_of_wOk (s : RStep) (h : s.wOk = true) :
    (relayStep s).2.1 = s.chunk := by
  unfold relayStep
  by_cases hc : s.chunk.isEmpty <;> simp [hc, h]

/-- C2 counterexample: the claim states that content longer than the magic
string is treated as not yet signaled, but on a token whose content
properly extends the magic string the check returns true and the relay
exits with status 0 at its next poll. -/
theorem check_term_file_longer_content_signals :
    check_term_file ("TIME_TO_DIEXXX".data) = true ∧
    ("TIME_TO_DIEXXX".data).length ≠ TERM_STRING.length ∧
    (relayStep ⟨[], true, some ("TIME_TO_DIEXXX".data)⟩).2.2 = some ROut.exit0 := by
  refine ⟨by decide, by decide, by decide⟩

/-- C2 (amended): the termination check returns true exactly when the
token's leading bytes equal the magic string `TIME_TO_DIE` (content may
extend past the magic string), and the relay's poll on an empty read exits
with status 0 exactly when the token file exists and that check passes; in
particular absent, shorter or mismatching content keeps the relay
running. -/
theorem relay_exact_match_termination (f : Option (List Char)) (c : List Char) :
    (check_term_file c = true ↔ ∃ rest, c = TERM_STRING ++ rest) ∧
    ((relayStep ⟨[], true, f⟩).2.2 = some ROut.exit0 ↔
      ∃ c2, f = some c2 ∧ check_term_file c2 = true) := by
  refine ⟨check_term_file_iff c, ?_⟩
  cases f with
  | none => simp [relayStep]
  | some c2 =>
    by_cases h : check_term_file c2 = true
    · simp [relayStep, h]
    · simp [relayStep, h]

theorem relayRun_out_of_running (sched : List RStep)
    (hok : ∀ s ∈ sched, s.wOk = true)
    (hrun : (relayRun sched).2.2 = ROut.running) :
    (relayRun sched).2.1 = (sched.map RStep.chunk).flatten := by
  induction sched with
  | nil => rfl
  | cons s rest ih =>
    have hsok : s.wOk = true := hok s (by simp)
    have hrok : ∀ t ∈ rest, t.wOk = true := fun t ht => hok t (by simp [ht])
    cases ho : (relayStep s).2.2 with
    | some r =>
      rw [relayRun_cons_stop s rest r ho] at hrun
      exact absurd hrun.symm (Ne.symm (relayStep_stop_not_running s r ho))
    | none =>
      rw [relayRun_cons_continue s rest ho] at hrun ⊢
      simp only [Prod.snd] at hrun
      have hout2 := ih hrok hrun
      simp [relayStep_out_of_wOk s hsok, hout2]

theorem relayRun_append_single (sched : List RStep) (s : RStep)
    (hrun : (relayRun sched).2.2 = ROut.running) :
    (relayRun (sched ++ [s])).2.1 = (relayRun sched).2.1 ++ (relayStep s).2.1 := by
  induction sched with
  | nil =>
    cases ho : (relayStep s).2.2 with
    | some r => rw [show ([] ++ [s] : List RStep) = [s] from rfl,
        relayRun_cons_stop s [] r ho]; rfl
    | none => rw [show ([] ++ [s] : List RStep) = [s] from rfl,
        relayRun_cons_continue s [] ho]; simp [relayRun]
  | cons t rest ih =>
    cases ho : (relayStep t).2.2 with
    | some r =>
      rw [relayRun_cons_stop t rest r ho] at hrun
      exact absurd hrun.symm (Ne.symm (relayStep_stop_not_running t r ho))
    | none =>
      rw [relayRun_cons_continue t rest ho] at hrun
      simp only [Prod.snd] at hrun
      have := ih hrun
      rw [show (t :: rest) ++ [s] = t :: (rest ++ [s]) from rfl,
        relayRun_cons_continue t (rest ++ [s]) ho,
        relayRun_cons_continue t rest ho]
      simp [this, List.append_assoc]

/-- C4: on the success path (every stdout write succeeds), a relay run
that is still going at the end of its schedule has emitted exactly the
concatenation, in order, of the blocks it read from stdin — no loss, no
duplication; an empty read whose poll sees an absent or unsignaled token
never makes the relay exit; and the byte-exactness also holds through the
final step, whether that step exits the relay cleanly or not. -/
theorem relay_byte_exact_and_no_premature_exit :
    (∀ sched : List RStep, (∀ s ∈ sched, s.wOk = true) →
      (relayRun sched).2.2 = ROut.running →
      (relayRun sched).2.1 = (sched.map RStep.chunk).flatten) ∧
    (∀ s : RStep, s.wOk = true →
      (∀ c, s.file = some c → check_term_file c = false) →
      (relayStep s).2.2 ≠ some ROut.exit0) ∧
    (∀ (sched : List RStep) (s : RStep),
      (∀ t ∈ sched ++ [s], t.wOk = true) →
      (relayRun sched).2.2 = ROut.running →
      (relayRun (sched ++ [s])).2.1 = ((sched ++ [s]).map RStep.chunk).flatten) := by
  refine ⟨relayRun_out_of_running, ?_, ?_⟩
  · intro s hw hf
    unfold relayStep
    by_cases hc : s.chunk.isEmpty
    · rcases hfs : s.file with _ | c
      · simp [hc, hw, hfs]
      · simp [hc, hw, hfs, hf c hfs]
    · simp [hc, hw]
  · intro sched s hok hrun
    have hok1 : ∀ t ∈ sched, t.wOk = true := fun t ht => hok t (by simp [ht])
    have hsok : s.wOk = true := hok s (by simp)
    rw [relayRun_append_single sched s hrun,
      relayRun_out_of_running sched hok1 hrun, relayStep_out_of_wOk s hsok]
    simp

/-- Concrete schedule exercising the relay byte-exactness theorem. -/
def relaySchedEx : List RStep :=
  [⟨[1, 2], true, none⟩, ⟨[], true, some ("TIME".data)⟩, ⟨[3], true, none⟩]

/-- Witness for C4 at a concrete schedule containing a non-empty read, an
empty read under an unsignaled token, and another non-empty read. -/
theorem relay_byte_exact_witness :
    (relayRun relaySchedEx).2.1 = (relaySchedEx.map RStep.chunk).flatten ∧
    (relayStep ⟨[], true, some ("TIME".data)⟩).2.2 ≠ some ROut.exit0 := by
  refine ⟨relay_byte_exact_and_no_premature_exit.1 relaySchedEx (by decide) (by decide),
    relay_byte_exact_and_no_premature_exit.2.1 ⟨[], true, some ("TIME".data)⟩ rfl ?_⟩
  intro c hc
  rw [Option.some_inj] at hc
  subst hc
  decide

/-- C7: on an empty read the relay sleeps, then performs a zero-length
write (the downstream-liveness probe), and only then polls the termination
path; when the probe write faults the poll never happens, the fault is not
caught — the run ends right there with a fault outcome — and a fault is
not the clean exit-0 termination. -/
theorem relay_probe_order_and_fault (f : Option (List Char)) (rest : List RStep) :
    (relayStep ⟨[], true, f⟩).1 = [REv.sleep, REv.write [], REv.poll] ∧
    (relayStep ⟨[], false, f⟩).1 = [REv.sleep, REv.write []] ∧
    (relayStep ⟨[], false, f⟩).2.2 = some ROut.fault ∧
    (relayRun (⟨[], false, f⟩ :: rest)).2.2 = ROut.fault ∧
    ROut.fault ≠ ROut.exit0 := by
  refine ⟨by simp [relayStep], by simp [relayStep], by simp [relayStep], ?_, by decide⟩
  rw [relayRun_cons_stop _ rest ROut.fault (by simp [relayStep])]

/-! ## Termination-token creation (`get_term_dir`, `get_term_file`)

The shared directory is `os.path.join(environment_specific.RAID_MOUNT,
TERM_DIR)`; `get_term_dir` creates it when absent, and `get_term_file`
allocates a token inside it with `tempfile.mkstemp` (then closes the
handle).  The filesystem is modelled by the set of token names already
present in that directory, together with whether the directory exists. -/

/-- Modelled from the spec: `environment_specific.RAID_MOUNT` (repository
code not under src/) — the shared-location collaborator supplying a fixed
writable directory path common to relay and orchestrator. -/
def RAID_MOUNT : String := "/raid0"

/-- `TERM_DIR` constant from the source. -/
def TERM_DIR : String := "repeater_lock_dir"

/-- The path of the shared termination directory. -/
def term_dir_path : String := RAID_MOUNT ++ "/" ++ TERM_DIR

/-- A token path: the directory it lives in and its unique name. -/
structure TokenPath where
  dir : String
  name : Nat
deriving DecidableEq, Repr

/-- State of the token-hosting filesystem. -/
structure FS where
  dirExists : Bool
  tokens : List Nat
deriving DecidableEq, Repr

/-- `get_term_dir` from the source: create the shared directory when it
does not exist, and return its path. -/
def get_term_dir (fs : FS) : String × FS :=
  if fs.dirExists then (term_dir_path, fs)
  else (term_dir_path, { fs with dirExists := true })

/-- A name strictly larger than every token name present. -/
def freshTokenName (fs : FS) : Nat := (fs.tokens.foldr max 0) + 1

/-- Modelled from the spec: `tempfile.mkstemp` — atomically allocates a
uniquely named file inside the given directory, never colliding with an
existing name. -/
def mkstemp (dir : String) (fs : FS) : TokenPath × FS :=
  (⟨dir, freshTokenName fs⟩, { fs with tokens := freshTokenName fs :: fs.tokens })

/-- `get_term_file` from the source: obtain the shared directory (creating
it if needed) and atomically create a fresh uniquely named file in it. -/
def get_term_file (fs : FS) : TokenPath × FS :=
  let (d, fs1) := get_term_dir fs
  mkstemp d fs1

theorem mem_le_foldr_max (x : Nat) (l : List Nat) (hx : x ∈ l) :
    x ≤ l.foldr max 0 := by
  induction l with
  | nil => simp at hx
  | cons a t ih =>
    simp only [List.foldr_cons]
    rcases List.mem_cons.mp hx with rfl | h
    · exact le_max_left _ _
    · exact (ih h).trans (le_max_right _ _)

theorem freshTokenName_not_mem (fs : FS) : freshTokenName fs ∉ fs.tokens := by
  intro hmem
  have hle : freshTokenName fs ≤ fs.tokens.foldr max 0 :=
    mem_le_foldr_max _ _ hmem
  unfold freshTokenName at hle
  omega

theorem get_term_file_eq (g : FS) :
    get_term_file g =
      (⟨term_dir_path, freshTokenName g⟩, ⟨true, freshTokenName g :: g.tokens⟩) := by
  by_cases hd : g.dirExists
  · simp [get_term_file, get_term_dir, mkstemp, hd, freshTokenName]
  · simp [get_term_file, get_term_dir, mkstemp, hd, freshTokenName]

/-- C9: `get_term_file` returns the path of a freshly created, uniquely
named file inside the shared termination directory (which it creates if
absent): the returned name did not exist before the call and exists after
it, and a second creation — the serialization of a concurrent job's
creation, `mkstemp` being atomic — yields a different name. -/
theorem get_term_file_fresh_unique (fs : FS) :
    (get_term_file fs).1.dir = term_dir_path ∧
    (get_term_file fs).2.dirExists = true ∧
    (get_term_file fs).1.name ∉ fs.tokens ∧
    (get_term_file fs).1.name ∈ (get_term_file fs).2.tokens ∧
    (get_term_file (get_term_file fs).2).1.name ≠ (get_term_file fs).1.name := by
  rw [get_term_file_eq fs]
  refine ⟨rfl, rfl, freshTokenName_not_mem fs, by simp, ?_⟩
  rw [get_term_file_eq ⟨true, freshTokenName fs :: fs.tokens⟩]
  intro heq
  have heq2 : freshTokenName ⟨true, freshTokenName fs :: fs.tokens⟩ =
      freshTokenName fs := heq
  have hnot := freshTokenName_not_mem ⟨true, freshTokenName fs :: fs.tokens⟩
  rw [heq2] at hnot
  exact hnot (by simp)

/-! ## Observable events of the orchestrator and the teardown helper -/

/-- Events performed by `safe_upload` and `kill_precursor_procs`. -/
inductive Ev where
  | createToken
  | spawnRepeater
  | spawnUploader
  | pollPre (g : ProcGroup)
  | pollUpl (g : ProcGroup)
  | sleep
  | runCheck
  | signal
  | pollUpl2 (g : ProcGroup)
  | sleep2
  | killUploader
  | killRepeater
  | removeToken
  | pidCheck (name : String)
  | killProc (name : String)
deriving DecidableEq, Repr

/-- A `proc.kill()` call wrapped in `try: ... except: pass`: the raw kill
may raise, the wrapper records the attempt and swallows any error. -/
def attemptKill (ev : Ev) (killOk : Bool) : List Ev × Option Err :=
  match (if killOk then none else some Err.killFailed : Option Err) with
  | none => ([ev], none)
  | some _ => ([ev], none)

theorem attemptKill_never_raises (ev : Ev) (killOk : Bool) :
    (attemptKill ev killOk).2 = none := by
  cases killOk <;> rfl

/-! ## `kill_precursor_procs` -/

/-- One entry of the dict passed to `kill_precursor_procs`: its key, its
handle (`none` models a falsy placeholder value), the answer
`psutil.pid_exists` would give for its pid, and whether a `kill()` call on
it would succeed. -/
structure KEntry where
  name : String
  handle : Option Nat
  pidExists : Bool
  killOk : Bool
deriving DecidableEq, Repr

/-- Processing of a single dict entry by `kill_precursor_procs`:
`if procs[proc] and psutil.pid_exists(procs[proc].pid): try: kill except:
pass`.  Returns the events performed and the exception raised, if any. -/
def killOne (e : KEntry) : List Ev × Option Err :=
  match e.handle with
  | none => ([], none)
  | some _ =>
    if e.pidExists then
      let (evs, r) := attemptKill (Ev.killProc e.name) e.killOk
      (Ev.pidCheck e.name :: evs, r)
    else ([Ev.pidCheck e.name], none)

/-- `kill_precursor_procs` from the source: iterate over the dict,
processing each entry; an exception escaping an entry would propagate. -/
def kill_precursor_procs : List KEntry → List Ev × Option Err
  | [] => ([], none)
  | e :: rest =>
    match killOne e with
    | (evs, some err) => (evs, some err)
    | (evs, none) =>
      let (evs2, r) := kill_precursor_procs rest
      (evs ++ evs2, r)

theorem killOne_never_raises (e : KEntry) : (killOne e).2 = none := by
  unfold killOne
  cases e.handle with
  | none => rfl
  | some p =>
    by_cases hp : e.pidExists <;> cases hk : e.killOk <;> simp [hp, attemptKill]

theorem killOne_no_kill_of_not_exists (e : KEntry) (h : e.pidExists = false) :
    ∀ n, Ev.killProc n ∉ (killOne e).1 := by
  intro n
  unfold killOne
  cases e.handle with
  | none => simp
  | some p => simp [h]

/-- C8: the teardown operation never raises — for each entry with a live
pid it attempts the kill and swallows any error from the kill attempt
itself — and on a group whose processes have already exited it attempts no
kill at all, so invoking it once or twice in a row raises on neither
call. -/
theorem kill_precursor_procs_never_raises (procs : List KEntry) :
    (kill_precursor_procs procs).2 = none ∧
    ((∀ e ∈ procs, e.pidExists = false) →
      ∀ n, Ev.killProc n ∉ (kill_precursor_procs procs).1) := by
  induction procs with
  | nil => exact ⟨rfl, by intro _ n h; simp [kill_precursor_procs] at h⟩
  | cons e rest ih =>
    have hk : (killOne e).2 = none := killOne_never_raises e
    rcases hone : killOne e with ⟨evs, r⟩
    rw [hone] at hk
    simp only at hk
    subst hk
    rcases hrest : kill_precursor_procs rest with ⟨evs2, r2⟩
    constructor
    · simp only [kill_precursor_procs, hone, hrest]
      have := ih.1
      rw [hrest] at this
      exact this
    · intro hall n
      simp only [kill_precursor_procs, hone, hrest, List.mem_append]
      rintro (hmem | hmem)
      · have := killOne_no_kill_of_not_exists e (hall e (by simp)) n
        rw [hone] at this
        exact this hmem
      · have := ih.2 (fun t ht => hall t (by simp [ht])) n
        rw [hrest] at this
        exact this hmem

/-- Concrete group of two already-exited handles for the C8 witness. -/
def exitedGroup : List KEntry :=
  [⟨"p1", some 11, false, true⟩, ⟨"p2", some 12, false, false⟩]

/-- Witness for C8: on a concrete group whose processes have already
exited, a teardown call raises nothing and attempts no kill — hence a
second identical call does the same. -/
theorem kill_precursor_procs_never_raises_witness :
    (kill_precursor_procs exitedGroup).2 = none ∧
    Ev.killProc "p1" ∉ (kill_precursor_procs exitedGroup).1 :=
  ⟨(kill_precursor_procs_never_raises exitedGroup).1,
   (kill_precursor_procs_never_raises exitedGroup).2 (by decide) "p1"⟩

/-- C10: a dict entry whose handle is falsy (`None`) is skipped entirely —
no existence check, no kill attempt, no exception — so the whole teardown
behaves as if such placeholder entries were absent. -/
theorem kill_precursor_procs_skips_none_handles :
    (∀ (n : String) (pe ko : Bool),
      killOne ⟨n, none, pe, ko⟩ = ([], none)) ∧
    (∀ procs : List KEntry,
      kill_precursor_procs procs =
        kill_precursor_procs (procs.filter fun e => e.handle.isSome)) := by
  constructor
  · intro n pe ko
    rfl
  · intro procs
    induction procs with
    | nil => rfl
    | cons e rest ih =>
      cases he : e.handle with
      | none =>
        have hskip : killOne e = ([], none) := by unfold killOne; rw [he]
        simp only [kill_precursor_procs, hskip, List.filter_cons, he,
          Option.isSome_none, Bool.false_eq_true, if_false, List.nil_append]
        rcases hrest : kill_precursor_procs rest with ⟨evs2, r2⟩
        rw [← ih, hrest]
      | some p =>
        have hfil : (e :: rest).filter (fun e => e.handle.isSome) =
            e :: rest.filter (fun e => e.handle.isSome) := by
          simp [List.filter_cons, he]
        rw [hfil]
        simp only [kill_precursor_procs]
        rw [← ih]

/-! ## `safe_upload`

The environment fixes every effectful outcome: token creation, the two
`Popen` calls, the successive observations of the two process groups in
the first monitoring loop (as pairs: the precursor group and the
upload-side group seen at one iteration), the optional check function
(`none` when not supplied, `some r` when supplied with outcome `r`), the
write of the magic string, the observations of the upload-side group in
the final wait loop, the `psutil.pid_exists` answers and `kill()` outcomes
at teardown time, and the outcome of `os.remove`.

The Python 2 exception semantics is modelled explicitly: the bare
`except:` performs the teardown and re-raises; the `finally:` block then
runs `os.remove(term_path)` — when `get_term_file` itself raised,
`term_path` is an unbound local, so this raises a `NameError`, and any
exception escaping the `finally` block replaces the in-flight one. -/

/-- Environment of one `safe_upload` call. -/
structure Env where
  tokenCreate : Option Err
  spawnRep : Option Err
  spawnUpl : Option Err
  polls1 : List (ProcGroup × ProcGroup)
  checkFunc : Option (Option Err)
  signalWrite : Option Err
  polls2 : List ProcGroup
  uplExists : Bool
  repExists : Bool
  killUplOk : Bool
  killRepOk : Bool
  removeRes : Option Err
deriving DecidableEq, Repr

/-- Result of a monitoring loop over a finite schedule of observations. -/
inductive LoopRes where
  | completed
  | failed (e : Err)
  | exhausted
deriving DecidableEq, Repr

/-- The first monitoring loop: `while not check_dict_of_procs(
precursor_procs): check_dict_of_procs(upload_procs); sleep`. -/
def monitorLoop1 : List (ProcGroup × ProcGroup) → List Ev × LoopRes
  | [] => ([], .exhausted)
  | (pre, upl) :: rest =>
    match check_dict_of_procs pre with
    | .err e => ([Ev.pollPre pre], .failed e)
    | .ok true => ([Ev.pollPre pre], .completed)
    | .ok false =>
      match check_dict_of_procs upl with
      | .err e => ([Ev.pollPre pre, Ev.pollUpl upl], .failed e)
      | .ok _ =>
        let (evs, r) := monitorLoop1 rest
        (Ev.pollPre pre :: Ev.pollUpl upl :: Ev.sleep :: evs, r)

/-- The final wait loop: `while not check_dict_of_procs(upload_procs):
sleep`. -/
def monitorLoop2 : List ProcGroup → List Ev × LoopRes
  | [] => ([], .exhausted)
  | upl :: rest =>
    match check_dict_of_procs upl with
    | .err e => ([Ev.pollUpl2 upl], .failed e)
    | .ok true => ([Ev.pollUpl2 upl], .completed)
    | .ok false =>
      let (evs, r) := monitorLoop2 rest
      (Ev.pollUpl2 upl :: Ev.sleep2 :: evs, r)

/-- How the `try` block of `safe_upload` ends. -/
inductive BodyRes where
  | ok
  | err (e : Err)
  | diverged
deriving DecidableEq, Repr

/-- Outcome of the `try` block of `safe_upload`: events performed, whether
`term_path` got bound, whether the repeater and the uploader entries exist
in `upload_procs`, and how the block ended.  `diverged` records a schedule
that ran out while a loop was still going. -/
structure BOut where
  evs : List Ev
  tokenMade : Bool
  repSp : Bool
  uplSp : Bool
  res : BodyRes
deriving DecidableEq, Repr

/-- Steps 6–7 of the `try` block: write the magic string to the term file,
then wait for the upload-side group. -/
def bodySignalOn (env : Env) (evs : List Ev) : BOut :=
  match env.signalWrite with
  | some e => ⟨evs, true, true, true, .err e⟩
  | none =>
    match monitorLoop2 env.polls2 with
    | (evs2, .completed) => ⟨evs ++ Ev.signal :: evs2, true, true, true, .ok⟩
    | (evs2, .failed e) => ⟨evs ++ Ev.signal :: evs2, true, true, true, .err e⟩
    | (evs2, .exhausted) => ⟨evs ++ Ev.signal :: evs2, true, true, true, .diverged⟩

/-- Steps 4–7 of the `try` block, after both spawns succeeded: first
monitoring loop, optional check function, signal, final wait. -/
def bodyMonitorOn (env : Env) (evs : List Ev) : BOut :=
  match monitorLoop1 env.polls1 with
  | (evs1, .failed e) => ⟨evs ++ evs1, true, true, true, .err e⟩
  | (evs1, .exhausted) => ⟨evs ++ evs1, true, true, true, .diverged⟩
  | (evs1, .completed) =>
    match env.checkFunc with
    | some (some e) => ⟨evs ++ evs1 ++ [Ev.runCheck], true, true, true, .err e⟩
    | some none => bodySignalOn env (evs ++ evs1 ++ [Ev.runCheck])
    | none => bodySignalOn env (evs ++ evs1)

/-- The whole `try` block of `safe_upload`. -/
def body (env : Env) : BOut :=
  match env.tokenCreate with
  | some e => ⟨[], false, false, false, .err e⟩
  | none =>
    match env.spawnRep with
    | some e => ⟨[Ev.createToken], true, false, false, .err e⟩
    | none =>
      match env.spawnUpl with
      | some e => ⟨[Ev.createToken, Ev.spawnRepeater], true, true, false, .err e⟩
      | none =>
        bodyMonitorOn env [Ev.createToken, Ev.spawnRepeater, Ev.spawnUploader]

/-- Outcome of a `safe_upload` call as seen by the caller. -/
inductive Outcome where
  | ok
  | raised (e : Err)
  | diverged
deriving DecidableEq, Repr

/-- The `finally:` block: `os.remove(term_path)`.  `inflight` is the
exception re-raised by the `except:` handler (or `none` on the success
path); an exception escaping the `finally` block replaces it.  When
`term_path` never got bound the name lookup itself raises `NameError` and
no removal runs. -/
def finallyRemove (env : Env) (evs : List Ev) (tokenMade : Bool)
    (inflight : Option Err) : List Ev × Outcome :=
  if tokenMade then
    match env.removeRes with
    | none =>
      (evs ++ [Ev.removeToken],
        match inflight with
        | none => Outcome.ok
        | some e => Outcome.raised e)
    | some e2 => (evs ++ [Ev.removeToken], Outcome.raised e2)
  else (evs, Outcome.raised Err.nameError)

/-- `safe_upload` from the source: run the `try` block; on an exception the
bare `except:` kills the uploader then the repeater (each only when its
entry exists in `upload_procs` and its pid still exists, kill errors
swallowed) and re-raises; the `finally:` block always runs
`os.remove(term_path)` afterwards. -/
def safe_upload (env : Env) : List Ev × Outcome :=
  match body env with
  | ⟨evs, _, _, _, .diverged⟩ => (evs, Outcome.diverged)
  | ⟨evs, tokenMade, _, _, .ok⟩ => finallyRemove env evs tokenMade none
  | ⟨evs, tokenMade, repSp, uplSp, .err e⟩ =>
    let kU := if uplSp && env.uplExists then (attemptKill Ev.killUploader env.killUplOk).1
              else []
    let kR := if repSp && env.repExists then (attemptKill Ev.killRepeater env.killRepOk).1
              else []
    finallyRemove env (evs ++ kU ++ kR) tokenMade (some e)

theorem attemptKill_eq (ev : Ev) (b : Bool) : attemptKill ev b = ([ev], none) := by
  cases b <;> rfl

/-- Events the `try` block of `safe_upload` can perform (no kill, no
pid check, no token removal happens inside it). -/
def bodyEvOk : Ev → Bool
  | .killUploader => false
  | .killRepeater => false
  | .killProc _ => false
  | .pidCheck _ => false
  | .removeToken => false
  | _ => true

theorem monitorLoop1_evs_cases (ps : List (ProcGroup × ProcGroup)) :
    ∀ ev ∈ (monitorLoop1 ps).1,
      (∃ g, ev = Ev.pollPre g) ∨ (∃ g, ev = Ev.pollUpl g) ∨ ev = Ev.sleep := by
  induction ps with
  | nil => simp [monitorLoop1]
  | cons pu rest ih =>
    obtain ⟨pre, upl⟩ := pu
    intro ev hev
    simp only [monitorLoop1] at hev
    cases hpre : check_dict_of_procs pre with
    | err e => rw [hpre] at hev; simp at hev; simp [hev]
    | ok b =>
      cases b with
      | true => rw [hpre] at hev; simp at hev; simp [hev]
      | false =>
        rw [hpre] at hev
        cases hupl : check_dict_of_procs upl with
        | err e =>
          rw [hupl] at hev
          simp at hev
          rcases hev with rfl | rfl <;> simp
        | ok b2 =>
          rw [hupl] at hev
          rcases hrest : monitorLoop1 rest with ⟨evs, r⟩
          rw [hrest] at hev
          simp at hev
          rcases hev with rfl | rfl | rfl | hm
          · simp
          · simp
          · simp
          · have := ih ev
            rw [hrest] at this
            exact this hm

theorem monitorLoop2_evs_cases (ps : List ProcGroup) :
    ∀ ev ∈ (monitorLoop2 ps).1,
      (∃ g, ev = Ev.pollUpl2 g) ∨ ev = Ev.sleep2 := by
  induction ps with
  | nil => simp [monitorLoop2]
  | cons upl rest ih =>
    intro ev hev
    simp only [monitorLoop2] at hev
    cases hupl : check_dict_of_procs upl with
    | err e => rw [hupl] at hev; simp at hev; simp [hev]
    | ok b =>
      cases b with
      | true => rw [hupl] at hev; simp at hev; simp [hev]
      | false =>
        rw [hupl] at hev
        rcases hrest : monitorLoop2 rest with ⟨evs, r⟩
        rw [hrest] at hev
        simp at hev
        rcases hev with rfl | rfl | hm
        · simp
        · simp
        · have := ih ev
          rw [hrest] at this
          exact this hm

theorem monitorLoop1_evs_ok (ps : List (ProcGroup × ProcGroup)) :
    ∀ ev ∈ (monitorLoop1 ps).1, bodyEvOk ev = true := by
  intro ev hev
  rcases monitorLoop1_evs_cases ps ev hev with ⟨g, rfl⟩ | ⟨g, rfl⟩ | rfl <;> rfl

theorem monitorLoop2_evs_ok (ps : List ProcGroup) :
    ∀ ev ∈ (monitorLoop2 ps).1, bodyEvOk ev = true := by
  intro ev hev
  rcases monitorLoop2_evs_cases ps ev hev with ⟨g, rfl⟩ | rfl <;> rfl

theorem monitorLoop1_completed_mem (ps : List (ProcGroup × ProcGroup))
    (h : (monitorLoop1 ps).2 = LoopRes.completed) :
    ∃ pu ∈ ps, check_dict_of_procs pu.1 = .ok true := by
  induction ps with
  | nil => simp [monitorLoop1] at h
  | cons pu rest ih =>
    obtain ⟨pre, upl⟩ := pu
    simp only [monitorLoop1] at h
    cases hpre : check_dict_of_procs pre with
    | err e => rw [hpre] at h; simp at h
    | ok b =>
      cases b with
      | true => exact ⟨(pre, upl), by simp, hpre⟩
      | false =>
        rw [hpre] at h
        cases hupl : check_dict_of_procs upl with
        | err e => rw [hupl] at h; simp at h
        | ok b2 =>
          rw [hupl] at h
          rcases hrest : monitorLoop1 rest with ⟨evs, r⟩
          rw [hrest] at h
          simp at h
          subst h
          obtain ⟨pu2, hmem, hok⟩ := ih (by rw [hrest])
          exact ⟨pu2, by simp [hmem], hok⟩

theorem signal_not_mem_loop1 (ps : List (ProcGroup × ProcGroup)) :
    Ev.signal ∉ (monitorLoop1 ps).1 := by
  intro h
  rcases monitorLoop1_evs_cases ps _ h with ⟨g, heq⟩ | ⟨g, heq⟩ | heq <;>
    simp at heq

theorem pollUpl2_not_mem_loop1 (ps : List (ProcGroup × ProcGroup)) (g : ProcGroup) :
    Ev.pollUpl2 g ∉ (monitorLoop1 ps).1 := by
  intro h
  rcases monitorLoop1_evs_cases ps _ h with ⟨g2, heq⟩ | ⟨g2, heq⟩ | heq <;>
    simp at heq

theorem signal_not_mem_loop2 (ps : List ProcGroup) :
    Ev.signal ∉ (monitorLoop2 ps).1 := by
  intro h
  rcases monitorLoop2_evs_cases ps _ h with ⟨g, heq⟩ | heq <;> simp at heq

theorem bodySignalOn_evs_ok (env : Env) (evs : List Ev)
    (h : ∀ ev ∈ evs, bodyEvOk ev = true) :
    ∀ ev ∈ (bodySignalOn env evs).evs, bodyEvOk ev = true := by
  unfold bodySignalOn
  cases hsw : env.signalWrite with
  | some e => simpa using h
  | none =>
    rcases hl2 : monitorLoop2 env.polls2 with ⟨evs2, r2⟩
    have h2 : ∀ ev ∈ evs2, bodyEvOk ev = true := by
      have := monitorLoop2_evs_ok env.polls2
      rw [hl2] at this
      exact this
    cases r2 <;> intro ev hev <;> simp at hev <;>
      rcases hev with hev | rfl | hev <;>
      first
        | exact h ev hev
        | rfl
        | exact h2 ev hev

theorem bodyMonitorOn_evs_ok (env : Env) (evs : List Ev)
    (h : ∀ ev ∈ evs, bodyEvOk ev = true) :
    ∀ ev ∈ (bodyMonitorOn env evs).evs, bodyEvOk ev = true := by
  unfold bodyMonitorOn
  rcases hl1 : monitorLoop1 env.polls1 with ⟨evs1, r1⟩
  have h1 : ∀ ev ∈ evs1, bodyEvOk ev = true := by
    have := monitorLoop1_evs_ok env.polls1
    rw [hl1] at this
    exact this
  have happ : ∀ ev ∈ evs ++ evs1, bodyEvOk ev = true := by
    intro ev hev
    rcases List.mem_append.mp hev with hev | hev
    · exact h ev hev
    · exact h1 ev hev
  cases r1 with
  | failed e => simpa using happ
  | exhausted => simpa using happ
  | completed =>
    have happ2 : ∀ ev ∈ evs ++ evs1 ++ [Ev.runCheck], bodyEvOk ev = true := by
      intro ev hev
      rcases List.mem_append.mp hev with hev | hev
      · exact happ ev hev
      · simp at hev
        subst hev
        rfl
    cases hcf : env.checkFunc with
    | none => exact bodySignalOn_evs_ok env _ happ
    | some o =>
      cases o with
      | none => exact bodySignalOn_evs_ok env _ happ2
      | some e => simpa using happ2

theorem body_evs_ok (env : Env) : ∀ ev ∈ (body env).evs, bodyEvOk ev = true := by
  unfold body
  cases htc : env.tokenCreate with
  | some e => simp
  | none =>
    cases hsr : env.spawnRep with
    | some e =>
      intro ev hev
      simp at hev
      subst hev
      rfl
    | none =>
      cases hsu : env.spawnUpl with
      | some e =>
        intro ev hev
        simp at hev
        rcases hev with rfl | rfl <;> rfl
      | none =>
        apply bodyMonitorOn_evs_ok
        intro ev hev
        simp at hev
        rcases hev with rfl | rfl | rfl <;> rfl

theorem mem_ite_singleton {c : Prop} [Decidable c] {a ev : Ev}
    (h : ev ∈ (if c then [a] else [])) : ev = a := by
  split at h
  · simpa using h
  · simp at h

theorem finallyRemove_evs (env : Env) (evs : List Ev) (tm : Bool)
    (inflight : Option Err) :
    (finallyRemove env evs tm inflight).1 =
      if tm then evs ++ [Ev.removeToken] else evs := by
  unfold finallyRemove
  cases tm with
  | false => simp
  | true => cases hrm : env.removeRes <;> simp

theorem finallyRemove_outcome_clean (env : Env) (evs : List Ev)
    (inflight : Option Err) (h : env.removeRes = none) :
    (finallyRemove env evs true inflight).2 =
      match inflight with
      | none => Outcome.ok
      | some e => Outcome.raised e := by
  unfold finallyRemove
  rw [h]
  rfl

theorem finallyRemove_outcome_removeErr (env : Env) (evs : List Ev)
    (inflight : Option Err) (e2 : Err) (h : env.removeRes = some e2) :
    (finallyRemove env evs true inflight).2 = Outcome.raised e2 := by
  unfold finallyRemove
  rw [h]
  rfl

theorem finallyRemove_outcome_unbound (env : Env) (evs : List Ev)
    (inflight : Option Err) :
    (finallyRemove env evs false inflight).2 = Outcome.raised Err.nameError := by
  unfold finallyRemove
  simp

theorem safe_upload_eq_err (env : Env) (e : Err) (h : (body env).res = .err e) :
    safe_upload env = finallyRemove env ((body env).evs ++
      ((if (body env).uplSp && env.uplExists then [Ev.killUploader] else []) ++
       (if (body env).repSp && env.repExists then [Ev.killRepeater] else [])))
      (body env).tokenMade (some e) := by
  rcases hb : body env with ⟨evs, tm, rs, us, res⟩
  cases res with
  | ok => rw [hb] at h; simp at h
  | diverged => rw [hb] at h; simp at h
  | err e2 =>
    rw [hb] at h
    simp at h
    subst h
    simp [safe_upload, hb, attemptKill_eq, List.append_assoc]

theorem safe_upload_evs_split (env : Env) :
    ∃ suf, (safe_upload env).1 = (body env).evs ++ suf ∧
      ∀ ev ∈ suf, bodyEvOk ev = false := by
  rcases hb : body env with ⟨evs, tm, rs, us, res⟩
  cases res with
  | diverged => exact ⟨[], by simp [safe_upload, hb], by simp⟩
  | ok =>
    refine ⟨if tm then [Ev.removeToken] else [], ?_, ?_⟩
    · simp only [safe_upload, hb, finallyRemove_evs]
      cases tm <;> simp
    · intro ev hev
      rw [mem_ite_singleton hev]
      rfl
  | err e =>
    refine ⟨(if us && env.uplExists then [Ev.killUploader] else []) ++
            (if rs && env.repExists then [Ev.killRepeater] else []) ++
            (if tm then [Ev.removeToken] else []), ?_, ?_⟩
    · have heq := safe_upload_eq_err env e (by rw [hb])
      rw [heq, finallyRemove_evs, hb]
      cases tm <;> simp [List.append_assoc]
    · intro ev hev
      rcases List.mem_append.mp hev with hev | hev
      · rcases List.mem_append.mp hev with hev | hev
        · rw [mem_ite_singleton hev]; rfl
        · rw [mem_ite_singleton hev]; rfl
      · rw [mem_ite_singleton hev]; rfl

theorem body_signal_mem (env : Env) (h : Ev.signal ∈ (body env).evs) :
    (monitorLoop1 env.polls1).2 = LoopRes.completed ∧
    (∀ r, env.checkFunc = some r → r = none) ∧
    env.signalWrite = none ∧
    ∃ l rr, (body env).evs = l ++ Ev.signal :: rr ∧ ∀ g, Ev.pollUpl2 g ∉ l := by
  cases htc : env.tokenCreate with
  | some e => simp [body, htc] at h
  | none =>
  cases hsr : env.spawnRep with
  | some e => simp [body, htc, hsr] at h
  | none =>
  cases hsu : env.spawnUpl with
  | some e => simp [body, htc, hsr, hsu] at h
  | none =>
  have hbm : body env =
      bodyMonitorOn env [Ev.createToken, Ev.spawnRepeater, Ev.spawnUploader] := by
    simp [body, htc, hsr, hsu]
  rw [hbm] at h ⊢
  rcases hl1 : monitorLoop1 env.polls1 with ⟨evs1, r1⟩
  have hs1 : Ev.signal ∉ evs1 := by
    have := signal_not_mem_loop1 env.polls1
    rw [hl1] at this
    exact this
  have hp1 : ∀ g, Ev.pollUpl2 g ∉ evs1 := by
    intro g
    have := pollUpl2_not_mem_loop1 env.polls1 g
    rw [hl1] at this
    exact this
  cases r1 with
  | failed e =>
    have hevs : (bodyMonitorOn env
        [Ev.createToken, Ev.spawnRepeater, Ev.spawnUploader]).evs =
        [Ev.createToken, Ev.spawnRepeater, Ev.spawnUploader] ++ evs1 := by
      simp [bodyMonitorOn, hl1]
    rw [hevs] at h
    rcases List.mem_append.mp h with h | h
    · simp at h
    · exact absurd h hs1
  | exhausted =>
    have hevs : (bodyMonitorOn env
        [Ev.createToken, Ev.spawnRepeater, Ev.spawnUploader]).evs =
        [Ev.createToken, Ev.spawnRepeater, Ev.spawnUploader] ++ evs1 := by
      simp [bodyMonitorOn, hl1]
    rw [hevs] at h
    rcases List.mem_append.mp h with h | h
    · simp at h
    · exact absurd h hs1
  | completed =>
    cases hcf : env.checkFunc with
    | none =>
      have hbs : bodyMonitorOn env
          [Ev.createToken, Ev.spawnRepeater, Ev.spawnUploader] =
          bodySignalOn env
            ([Ev.createToken, Ev.spawnRepeater, Ev.spawnUploader] ++ evs1) := by
        simp [bodyMonitorOn, hl1, hcf]
      rw [hbs] at h ⊢
      cases hsw : env.signalWrite with
      | some e =>
        have hevs : (bodySignalOn env
            ([Ev.createToken, Ev.spawnRepeater, Ev.spawnUploader] ++ evs1)).evs =
            [Ev.createToken, Ev.spawnRepeater, Ev.spawnUploader] ++ evs1 := by
          simp [bodySignalOn, hsw]
        rw [hevs] at h
        rcases List.mem_append.mp h with h | h
        · simp at h
        · exact absurd h hs1
      | none =>
        rcases hl2 : monitorLoop2 env.polls2 with ⟨evs2, r2⟩
        have hevs : (bodySignalOn env
            ([Ev.createToken, Ev.spawnRepeater, Ev.spawnUploader] ++ evs1)).evs =
            ([Ev.createToken, Ev.spawnRepeater, Ev.spawnUploader] ++ evs1) ++
              Ev.signal :: evs2 := by
          cases r2 <;> simp [bodySignalOn, hsw, hl2]
        refine ⟨rfl, by intro r hr; simp at hr, rfl,
          [Ev.createToken, Ev.spawnRepeater, Ev.spawnUploader] ++ evs1, evs2,
          hevs, ?_⟩
        intro g hg
        rcases List.mem_append.mp hg with hg | hg
        · simp at hg
        · exact hp1 g hg
    | some o =>
      cases o with
      | some e =>
        have hevs : (bodyMonitorOn env
            [Ev.createToken, Ev.spawnRepeater, Ev.spawnUploader]).evs =
            [Ev.createToken, Ev.spawnRepeater, Ev.spawnUploader] ++ evs1 ++
              [Ev.runCheck] := by
          simp [bodyMonitorOn, hl1, hcf]
        rw [hevs] at h
        rcases List.mem_append.mp h with h | h
        · rcases List.mem_append.mp h with h | h
          · simp at h
          · exact absurd h hs1
        · simp at h
      | none =>
        have hbs : bodyMonitorOn env
            [Ev.createToken, Ev.spawnRepeater, Ev.spawnUploader] =
            bodySignalOn env
              ([Ev.createToken, Ev.spawnRepeater, Ev.spawnUploader] ++ evs1 ++
                [Ev.runCheck]) := by
          simp [bodyMonitorOn, hl1, hcf]
        rw [hbs] at h ⊢
        cases hsw : env.signalWrite with
        | some e =>
          have hevs : (bodySignalOn env
              ([Ev.createToken, Ev.spawnRepeater, Ev.spawnUploader] ++ evs1 ++
                [Ev.runCheck])).evs =
              [Ev.createToken, Ev.spawnRepeater, Ev.spawnUploader] ++ evs1 ++
                [Ev.runCheck] := by
            simp [bodySignalOn, hsw]
          rw [hevs] at h
          rcases List.mem_append.mp h with h | h
          · rcases List.mem_append.mp h with h | h
            · simp at h
            · exact absurd h hs1
          · simp at h
        | none =>
          rcases hl2 : monitorLoop2 env.polls2 with ⟨evs2, r2⟩
          have hevs : (bodySignalOn env
              ([Ev.createToken, Ev.spawnRepeater, Ev.spawnUploader] ++ evs1 ++
                [Ev.runCheck])).evs =
              ([Ev.createToken, Ev.spawnRepeater, Ev.spawnUploader] ++ evs1 ++
                [Ev.runCheck]) ++ Ev.signal :: evs2 := by
            cases r2 <;> simp [bodySignalOn, hsw, hl2]
          refine ⟨rfl, ?_, rfl,
            [Ev.createToken, Ev.spawnRepeater, Ev.spawnUploader] ++ evs1 ++
              [Ev.runCheck], evs2, hevs, ?_⟩
          · intro r hr
            exact (Option.some_inj.mp hr).symm
          · intro g hg
            rcases List.mem_append.mp hg with hg | hg
            · rcases List.mem_append.mp hg with hg | hg
              · simp at hg
              · exact hp1 g hg
            · simp at hg

/-- C1: the termination token is signaled only after the first monitoring
loop has observed every producer exited with success and, when a check
function is supplied, it has returned without raising; in the event trace
the signal strictly precedes every poll of the final upload-side wait
loop; and when the first loop raises a producer failure or the check
function raises, no signal ever happens. -/
theorem safe_upload_commit_point (env : Env) :
    (Ev.signal ∈ (safe_upload env).1 →
      (monitorLoop1 env.polls1).2 = LoopRes.completed ∧
      (∃ pu ∈ env.polls1, ∀ p ∈ pu.1, p.2 = PStatus.succeeded) ∧
      (∀ r, env.checkFunc = some r → r = none) ∧
      ∃ l rr, (safe_upload env).1 = l ++ Ev.signal :: rr ∧
        ∀ g, Ev.pollUpl2 g ∉ l) ∧
    (∀ e, ((monitorLoop1 env.polls1).2 = LoopRes.failed e ∨
        env.checkFunc = some (some e)) →
      Ev.signal ∉ (safe_upload env).1) := by
  obtain ⟨suf, hsplit, hsuf⟩ := safe_upload_evs_split env
  constructor
  · intro hsig
    rw [hsplit] at hsig
    rcases List.mem_append.mp hsig with hsig | hsig
    · obtain ⟨hc, hcf, hsw, l, rr, hevs, hl⟩ := body_signal_mem env hsig
      refine ⟨hc, ?_, hcf, l, rr ++ suf, ?_, hl⟩
      · obtain ⟨pu, hmem, hok⟩ := monitorLoop1_completed_mem env.polls1 hc
        exact ⟨pu, hmem, (check_dict_of_procs_ok_true_iff pu.1).mp hok⟩
      · rw [hsplit, hevs]
        simp [List.append_assoc]
    · have := hsuf _ hsig
      simp [bodyEvOk] at this
  · intro e he hsig
    rw [hsplit] at hsig
    rcases List.mem_append.mp hsig with hsig | hsig
    · obtain ⟨hc, hcf, _, _⟩ := body_signal_mem env hsig
      rcases he with he | he
      · rw [hc] at he
        simp at he
      · have := hcf _ he
        simp at this
    · have := hsuf _ hsig
      simp [bodyEvOk] at this

/-- A fully successful run: one producer that has already succeeded, a
passing final wait, no check function. -/
def envOk : Env :=
  ⟨none, none, none,
   [([("p", PStatus.succeeded)], [("r", PStatus.running), ("u", PStatus.running)])],
   none, none,
   [[("r", PStatus.succeeded), ("u", PStatus.succeeded)]],
   true, true, true, true, none⟩

/-- A run whose first monitoring loop observes a failed producer. -/
def envFailC1 : Env :=
  ⟨none, none, none,
   [([("q", PStatus.failed 7)], [("r", PStatus.running)])],
   none, none, [], true, true, true, true, none⟩

/-- Witness for C1: on a concrete successful run the signal happens and the
commit-point facts hold, and on a concrete run with a failed producer the
signal never happens. -/
theorem safe_upload_commit_point_witness :
    Ev.signal ∈ (safe_upload envOk).1 ∧
    ((monitorLoop1 envOk.polls1).2 = LoopRes.completed ∧
      (∃ pu ∈ envOk.polls1, ∀ p ∈ pu.1, p.2 = PStatus.succeeded) ∧
      (∀ r, envOk.checkFunc = some r → r = none) ∧
      ∃ l rr, (safe_upload envOk).1 = l ++ Ev.signal :: rr ∧
        ∀ g, Ev.pollUpl2 g ∉ l) ∧
    Ev.signal ∉ (safe_upload envFailC1).1 :=
  ⟨by decide, (safe_upload_commit_point envOk).1 (by decide),
   (safe_upload_commit_point envFailC1).2 (Err.procFailed "q" 7)
     (Or.inl (by decide))⟩

/-- C3 counterexample: an exception raised inside `safe_upload` (a producer
failure) is not re-raised unchanged to the caller when the unconditional
`os.remove` in the `finally:` block fails — the removal error replaces
it. -/
def envMask : Env :=
  ⟨none, none, none,
   [([("prod2", PStatus.failed 2)], [("r", PStatus.running)])],
   none, none, [], true, true, true, true, some Err.removeFailed⟩

theorem safe_upload_reraise_changed :
    (body envMask).res = BodyRes.err (Err.procFailed "prod2" 2) ∧
    (safe_upload envMask).2 = Outcome.raised Err.removeFailed ∧
    Outcome.raised Err.removeFailed ≠
      Outcome.raised (Err.procFailed "prod2" 2) := by decide

/-- C3 (amended): on any exception in the `try` block, `safe_upload`
attempts a best-effort kill of the uploader and of the repeater — exactly
of those whose dict entry exists and whose pid still exists — with kill
errors swallowed (the outcome is independent of whether the kills
succeed), and it never kills any producer; the handler re-raises the
original exception, and the caller receives it unchanged whenever the
token was created and its removal succeeds, while a failing removal
replaces it and a failed token creation surfaces as a `NameError` from the
`finally` block. -/
theorem safe_upload_teardown_on_error (env : Env) (e : Err)
    (h : (body env).res = BodyRes.err e) :
    (Ev.killUploader ∈ (safe_upload env).1 ↔
      ((body env).uplSp && env.uplExists) = true) ∧
    (Ev.killRepeater ∈ (safe_upload env).1 ↔
      ((body env).repSp && env.repExists) = true) ∧
    (∀ n, Ev.killProc n ∉ (safe_upload env).1) ∧
    (∀ b1 b2, safe_upload { env with killUplOk := b1, killRepOk := b2 } =
      safe_upload env) ∧
    ((body env).tokenMade = true → env.removeRes = none →
      (safe_upload env).2 = Outcome.raised e) ∧
    (∀ e2, (body env).tokenMade = true → env.removeRes = some e2 →
      (safe_upload env).2 = Outcome.raised e2) ∧
    ((body env).tokenMade = false →
      (safe_upload env).2 = Outcome.raised Err.nameError) := by
  have heq := safe_upload_eq_err env e h
  have hnbU : Ev.killUploader ∉ (body env).evs := by
    intro hm
    have := body_evs_ok env _ hm
    simp [bodyEvOk] at this
  have hnbR : Ev.killRepeater ∉ (body env).evs := by
    intro hm
    have := body_evs_ok env _ hm
    simp [bodyEvOk] at this
  have hevseq : (safe_upload env).1 =
      if (body env).tokenMade then
        ((body env).evs ++
          ((if (body env).uplSp && env.uplExists then [Ev.killUploader] else []) ++
           (if (body env).repSp && env.repExists then [Ev.killRepeater] else []))) ++
          [Ev.removeToken]
      else
        (body env).evs ++
          ((if (body env).uplSp && env.uplExists then [Ev.killUploader] else []) ++
           (if (body env).repSp && env.repExists then [Ev.killRepeater] else [])) := by
    rw [heq, finallyRemove_evs]
  refine ⟨?_, ?_, ?_, ?_, ?_, ?_, ?_⟩
  · rw [hevseq]
    cases htm : (body env).tokenMade <;>
      cases hu : (body env).uplSp && env.uplExists <;>
      cases hr : (body env).repSp && env.repExists <;>
      simp [hnbU]
  · rw [hevseq]
    cases htm : (body env).tokenMade <;>
      cases hu : (body env).uplSp && env.uplExists <;>
      cases hr : (body env).repSp && env.repExists <;>
      simp [hnbR]
  · intro n hm
    have hnbP : Ev.killProc n ∉ (body env).evs := by
      intro hm2
      have := body_evs_ok env _ hm2
      simp [bodyEvOk] at this
    rw [hevseq] at hm
    cases htm : (body env).tokenMade <;>
      cases hu : (body env).uplSp && env.uplExists <;>
      cases hr : (body env).repSp && env.repExists <;>
      rw [htm, hu, hr] at hm <;> simp at hm <;> exact absurd hm hnbP
  · intro b1 b2
    have hb : body { env with killUplOk := b1, killRepOk := b2 } = body env := rfl
    have hf : ∀ (evs : List Ev) (tm : Bool) (inflight : Option Err),
        finallyRemove { env with killUplOk := b1, killRepOk := b2 } evs tm inflight =
          finallyRemove env evs tm inflight := fun _ _ _ => rfl
    rcases hbody : body env with ⟨evs, tm, rs, us, res⟩
    cases res with
    | diverged => simp [safe_upload, hb, hbody]
    | ok => simp [safe_upload, hb, hbody, hf]
    | err e2 => simp [safe_upload, hb, hbody, hf, attemptKill_eq]
  · intro htm hrm
    rw [heq, htm, finallyRemove_outcome_clean _ _ _ hrm]
  · intro e2 htm hrm
    rw [heq, htm, finallyRemove_outcome_removeErr _ _ _ e2 hrm]
  · intro htm
    rw [heq, htm, finallyRemove_outcome_unbound]

/-- A run with a failed producer, an existing uploader pid and an already
vanished repeater pid. -/
def envErr : Env :=
  ⟨none, none, none,
   [([("p", PStatus.failed 3)], [("r", PStatus.running)])],
   none, none, [], true, false, true, true, none⟩

/-- Witness for C3 at a concrete failing run: the uploader (spawned, pid
exists) is killed, the repeater (pid gone) is not, and the producer
failure reaches the caller unchanged. -/
theorem safe_upload_teardown_witness :
    Ev.killUploader ∈ (safe_upload envErr).1 ∧
    Ev.killRepeater ∉ (safe_upload envErr).1 ∧
    (safe_upload envErr).2 = Outcome.raised (Err.procFailed "p" 3) := by
  have h := safe_upload_teardown_on_error envErr (Err.procFailed "p" 3) (by decide)
  refine ⟨h.1.mpr (by decide), ?_, h.2.2.2.2.1 (by decide) (by decide)⟩
  intro hm
  exact absurd (h.2.1.mp hm) (by decide)

/-- C5: a run whose token creation itself raises. -/
def envTokenFail : Env :=
  ⟨some Err.tokenCreateFailed, none, none, [], none, none, [],
   true, true, true, true, none⟩

/-- C5: a run with a failed producer whose `os.remove` fails. -/
def envRemoveFail : Env :=
  ⟨none, none, none,
   [([("b", PStatus.failed 1)], [("r", PStatus.running), ("u", PStatus.running)])],
   none, none, [], true, true, true, true, some Err.removeFailed⟩

/-- C5 (code bug): when token creation raises, no removal runs at all and
the caller receives a `NameError` instead of the original error; and when
the removal itself fails after a producer failure, the removal error
masks the original triggering error. -/
theorem safe_upload_remove_masks_error :
    ((safe_upload envTokenFail).2 = Outcome.raised Err.nameError ∧
      Err.nameError ≠ Err.tokenCreateFailed ∧
      Ev.removeToken ∉ (safe_upload envTokenFail).1) ∧
    ((body envRemoveFail).res = BodyRes.err (Err.procFailed "b" 1) ∧
      Ev.removeToken ∈ (safe_upload envRemoveFail).1 ∧
      (safe_upload envRemoveFail).2 = Outcome.raised Err.removeFailed ∧
      Err.removeFailed ≠ Err.procFailed "b" 1) := by decide

/-- C6: while the producers are not yet all-succeeded (their check returns
false), every iteration of the first monitoring loop also polls the
upload-side group; if that poll raises, the loop aborts immediately with
its fatal condition — no sleep, no further iteration — and otherwise it
sleeps and continues. -/
theorem monitorLoop1_polls_uploads_every_iteration (pre upl : ProcGroup)
    (rest : List (ProcGroup × ProcGroup)) (e : Err) (b : Bool) :
    (check_dict_of_procs pre = .ok false → check_dict_of_procs upl = .err e →
      monitorLoop1 ((pre, upl) :: rest) =
        ([Ev.pollPre pre, Ev.pollUpl upl], LoopRes.failed e)) ∧
    (check_dict_of_procs pre = .ok false → check_dict_of_procs upl = .ok b →
      monitorLoop1 ((pre, upl) :: rest) =
        (Ev.pollPre pre :: Ev.pollUpl upl :: Ev.sleep :: (monitorLoop1 rest).1,
          (monitorLoop1 rest).2)) := by
  constructor
  · intro h1 h2
    simp [monitorLoop1, h1, h2]
  · intro h1 h2
    rcases hrest : monitorLoop1 rest with ⟨evs, r⟩
    simp [monitorLoop1, h1, h2, hrest]

/-- Witness for C6 at concrete one-iteration schedules: a failed uploader
aborts the loop at once, and a still-running upload side is polled and the
loop moves on. -/
theorem monitorLoop1_polls_uploads_witness :
    monitorLoop1 [([("p", PStatus.running)], [("u", PStatus.failed 1)])] =
      ([Ev.pollPre [("p", PStatus.running)], Ev.pollUpl [("u", PStatus.failed 1)]],
        LoopRes.failed (Err.procFailed "u" 1)) ∧
    monitorLoop1 [([("p", PStatus.running)], [("u", PStatus.running)])] =
      (Ev.pollPre [("p", PStatus.running)] :: Ev.pollUpl [("u", PStatus.running)] ::
        Ev.sleep :: (monitorLoop1 ([] : List (ProcGroup × ProcGroup))).1,
        (monitorLoop1 ([] : List (ProcGroup × ProcGroup))).2) :=
  ⟨(monitorLoop1_polls_uploads_every_iteration _ _ [] (Err.procFailed "u" 1) false).1
      (by decide) (by decide),
   (monitorLoop1_polls_uploads_every_iteration _ _ [] (Err.procFailed "u" 1) false).2
      (by decide) (by decide)⟩
